import Mathlib

/-!
Verification development for the Currency-Exchange service.

Shallow embedding of the Go sources:
  * internals/core/domain          (currency codes, supported set)
  * internals/repository           (cachedRateRepository: GetLatestRates,
                                    GetHistoricalRates)
  * internals/adapter/cache        (redisCache, RedisLock)
  * internals/helpers              (doRequest retry loop)

Go maps are modelled as association lists with overwrite-insert (the same
observable lookup semantics); float64 rate values are modelled as rationals
(the code only moves rate values around and injects the literal 1.0 — it
performs no floating-point arithmetic on the paths modelled here);
time.Time values at day granularity are modelled as integer day numbers,
and timestamps as integers.  Fire-and-forget cache writes (goroutines) are
modelled by recording the issued write calls in the operation outcome.
-/

instance [DecidableEq ε] [DecidableEq α] : DecidableEq (Except ε α) := fun a b =>
  match a, b with
  | .error e1, .error e2 =>
      if h : e1 = e2 then isTrue (h ▸ rfl) else isFalse (fun hc => h (Except.error.inj hc))
  | .ok v1, .ok v2 =>
      if h : v1 = v2 then isTrue (h ▸ rfl) else isFalse (fun hc => h (Except.ok.inj hc))
  | .error _, .ok _ => isFalse (fun hc => Except.noConfusion hc)
  | .ok _, .error _ => isFalse (fun hc => Except.noConfusion hc)

namespace CurrencyExchange

/-- Go: type Currency string (internals/core/domain). -/
abbrev Currency := String

/-- Go: domain.SupportedCurrencies (internals/core/domain). -/
def SupportedCurrencies : List Currency := ["USD", "INR", "EUR", "JPY", "GBP"]

/-- Go: (Currency).IsSupported. -/
def Currency.IsSupported (c : Currency) : Bool := SupportedCurrencies.contains c

/-! ### Association-list model of Go maps -/

/-- Overwrite-insert into an association list: the model of Go `m[k] = v`. -/
def alInsert [DecidableEq α] : List (α × β) → α → β → List (α × β)
  | [], k, v => [(k, v)]
  | (k', v') :: rest, k, v =>
      if k' = k then (k, v) :: rest else (k', v') :: alInsert rest k v

/-- Lookup in an association list: the model of Go `v, ok := m[k]`. -/
def alLookup [DecidableEq α] : List (α × β) → α → Option β
  | [], _ => none
  | (k', v) :: rest, k => if k' = k then some v else alLookup rest k

theorem alLookup_alInsert_self [DecidableEq α] (m : List (α × β)) (k : α) (v : β) :
    alLookup (alInsert m k v) k = some v := by
  induction m with
  | nil => simp [alInsert, alLookup]
  | cons p rest ih =>
      obtain ⟨k', v'⟩ := p
      by_cases h : k' = k
      · simp [alInsert, alLookup, h]
      · simp [alInsert, alLookup, h, ih]

theorem alLookup_alInsert_ne [DecidableEq α] (m : List (α × β)) (k k' : α) (v : β)
    (h : k ≠ k') : alLookup (alInsert m k v) k' = alLookup m k' := by
  induction m with
  | nil => simp [alInsert, alLookup, h]
  | cons p rest ih =>
      obtain ⟨k0, v0⟩ := p
      by_cases h0 : k0 = k
      · subst h0
        simp [alInsert, alLookup, h, Ne.symm h]
      · by_cases h1 : k0 = k'
        · subst h1
          simp [alInsert, alLookup, h0]
        · simp [alInsert, alLookup, h0, h1, ih]

/-- Rate maps: Go `map[domain.Currency]float64`. -/
abbrev RateMap := List (Currency × ℚ)

/-! ### Repository environment and the latest-rates path
    (src/unnamed/part_002, cachedRateRepository) -/

/-- Go: domain.HistoricalTimeSeriesRatesResponse (internals/core/domain);
    `Rates` is `map[string]map[string]float64`. -/
structure HistoricalTimeSeriesRatesResponse where
  amount : ℚ
  base : String
  startDate : String
  endDate : String
  rates : List (String × RateMap)
  deriving DecidableEq

/-- The repository's collaborators (cache.Cache and
    exchangerateapi.RateAPIClient), as observable functions.  Cache reads
    return the stored snapshot or `none` for a miss; upstream calls return
    the fetched data or an error string. -/
structure RepoEnv where
  cacheLatest : Currency → Option (RateMap × ℤ)
  cacheHist : ℤ → Currency → Option RateMap
  apiLatest : Currency → List Currency → Except String (RateMap × ℤ)
  apiHist : ℤ → ℤ → Currency → List Currency →
      Except String HistoricalTimeSeriesRatesResponse

/-- Go: the `allSupportedTargets` fan-out computed in both repository
    methods: every supported currency except the base itself. -/
def fanOutTargets (base : Currency) : List Currency :=
  SupportedCurrencies.filter (fun curr => curr ≠ base)

/-- Observable outcome of cachedRateRepository.GetLatestRates: the returned
    value, the upstream calls issued, and the (fire-and-forget) cache writes
    issued. -/
structure LatestOutcome where
  result : Except String (RateMap × ℤ)
  upstreamCalls : List (Currency × List Currency)
  cacheWrites : List (Currency × RateMap × ℤ)
  deriving DecidableEq

/-- Go: (cachedRateRepository).GetLatestRates (src/unnamed/part_002 lines
    30-70).  On a cache hit it builds `{target: rate?}` plus `{base: 1.0}`
    from the cached snapshot; on a miss it fetches the full fan-out from
    upstream, injects `base: 1.0`, issues a `go cache.SetLatestRates` write
    of the full set, and returns `{target: rate?} ∪ {base: 1.0}`. -/
def cachedGetLatestRates (env : RepoEnv) (base target : Currency) : LatestOutcome :=
  match env.cacheLatest base with
  | some (cachedRates, timestamp) =>
      let result : RateMap :=
        match alLookup cachedRates target with
        | some rate => alInsert [] target rate
        | none => []
      let result := alInsert result base 1
      { result := .ok (result, timestamp), upstreamCalls := [], cacheWrites := [] }
  | none =>
      let allSupportedTargets := fanOutTargets base
      match env.apiLatest base allSupportedTargets with
      | .error e =>
          { result := .error ("failed to fetch latest rates from API: " ++ e),
            upstreamCalls := [(base, allSupportedTargets)], cacheWrites := [] }
      | .ok (apiRates, apiTimestamp) =>
          let fullRates := alInsert apiRates base 1
          let result : RateMap :=
            match alLookup fullRates target with
            | some rate => alInsert [] target rate
            | none => []
          let result := alInsert result base 1
          { result := .ok (result, apiTimestamp),
            upstreamCalls := [(base, allSupportedTargets)],
            cacheWrites := [(base, fullRates, apiTimestamp)] }

/-- C1 -- On a latest-rates cache hit, GetLatestRates answers purely from the
cached snapshot: base maps to 1.0, the target key is present exactly when it
is a key of the snapshot (with the cached rate), no other key is present, the
cached timestamp is returned, there is no error, the upstream client is never
invoked, and no cache write is issued — even when the target is absent from
the snapshot. -/
theorem getLatestRates_cacheHit (env : RepoEnv) (base target : Currency)
    (cachedRates : RateMap) (timestamp : ℤ)
    (hHit : env.cacheLatest base = some (cachedRates, timestamp)) :
    ∃ m : RateMap,
      (cachedGetLatestRates env base target).result = .ok (m, timestamp) ∧
      alLookup m base = some 1 ∧
      (target ≠ base → alLookup m target = alLookup cachedRates target) ∧
      (∀ c : Currency, c ≠ base → c ≠ target → alLookup m c = none) ∧
      (cachedGetLatestRates env base target).upstreamCalls = [] ∧
      (cachedGetLatestRates env base target).cacheWrites = [] := by
  cases hc : alLookup cachedRates target with
  | none =>
      have hrun : cachedGetLatestRates env base target =
          { result := .ok (alInsert [] base 1, timestamp),
            upstreamCalls := [], cacheWrites := [] } := by
        simp [cachedGetLatestRates, hHit, hc]
      refine ⟨alInsert [] base 1, by rw [hrun], alLookup_alInsert_self _ _ _,
        ?_, ?_, by rw [hrun], by rw [hrun]⟩
      · intro hne
        rw [alLookup_alInsert_ne _ _ _ _ (fun h => hne h.symm)]
        rfl
      · intro c hcb _
        rw [alLookup_alInsert_ne _ _ _ _ (fun h => hcb h.symm)]
        rfl
  | some rate =>
      have hrun : cachedGetLatestRates env base target =
          { result := .ok (alInsert (alInsert [] target rate) base 1, timestamp),
            upstreamCalls := [], cacheWrites := [] } := by
        simp [cachedGetLatestRates, hHit, hc]
      refine ⟨alInsert (alInsert [] target rate) base 1, by rw [hrun],
        alLookup_alInsert_self _ _ _, ?_, ?_, by rw [hrun], by rw [hrun]⟩
      · intro hne
        rw [alLookup_alInsert_ne _ _ _ _ (fun h => hne h.symm),
          alLookup_alInsert_self]
      · intro c hcb hct
        rw [alLookup_alInsert_ne _ _ _ _ (fun h => hcb h.symm),
          alLookup_alInsert_ne _ _ _ _ (fun h => hct h.symm)]
        rfl

/-- Concrete instance of C1: cached snapshot {INR: 82.5} for base USD at
timestamp 7; requesting target INR hits the cache; requesting target EUR
(absent from the snapshot) also answers from cache with no upstream call. -/
def envC1 : RepoEnv where
  cacheLatest := fun _ => some ([("INR", (82.5 : ℚ))], 7)
  cacheHist := fun _ _ => none
  apiLatest := fun _ _ => .error "unreachable"
  apiHist := fun _ _ _ _ => .error "unreachable"

theorem getLatestRates_cacheHit_witness :
    ∃ m : RateMap,
      (cachedGetLatestRates envC1 "USD" "EUR").result = .ok (m, 7) ∧
      alLookup m "USD" = some 1 ∧
      ("EUR" ≠ "USD" → alLookup m "EUR" = alLookup [("INR", (82.5 : ℚ))] "EUR") ∧
      (∀ c : Currency, c ≠ "USD" → c ≠ "EUR" → alLookup m c = none) ∧
      (cachedGetLatestRates envC1 "USD" "EUR").upstreamCalls = [] ∧
      (cachedGetLatestRates envC1 "USD" "EUR").cacheWrites = [] :=
  getLatestRates_cacheHit envC1 "USD" "EUR" [("INR", (82.5 : ℚ))] 7 rfl

/-- C2 -- On a latest-rates cache miss, GetLatestRates fetches from upstream
for base against all supported currencies except base (full fan-out), issues
one cache write keyed by base holding the full fetched set with base
injected at 1.0, and returns the requested target's rate (exactly when the
fetched set has it) together with base mapped to 1.0 and the upstream
timestamp. -/
theorem getLatestRates_cacheMiss (env : RepoEnv) (base target : Currency)
    (apiRates : RateMap) (apiTs : ℤ)
    (hMiss : env.cacheLatest base = none)
    (hApi : env.apiLatest base (fanOutTargets base) = .ok (apiRates, apiTs)) :
    ∃ m : RateMap,
      (cachedGetLatestRates env base target).result = .ok (m, apiTs) ∧
      alLookup m base = some 1 ∧
      (target ≠ base → alLookup m target = alLookup apiRates target) ∧
      (∀ c : Currency, c ≠ base → c ≠ target → alLookup m c = none) ∧
      (cachedGetLatestRates env base target).upstreamCalls
        = [(base, fanOutTargets base)] ∧
      ∃ w : RateMap,
        (cachedGetLatestRates env base target).cacheWrites = [(base, w, apiTs)] ∧
        alLookup w base = some 1 ∧
        (∀ c : Currency, c ≠ base → alLookup w c = alLookup apiRates c) := by
  cases hf : alLookup (alInsert apiRates base 1) target with
  | none =>
      have hrun : cachedGetLatestRates env base target =
          { result := .ok (alInsert [] base 1, apiTs),
            upstreamCalls := [(base, fanOutTargets base)],
            cacheWrites := [(base, alInsert apiRates base 1, apiTs)] } := by
        simp [cachedGetLatestRates, hMiss, hApi, hf]
      refine ⟨alInsert [] base 1, by rw [hrun], alLookup_alInsert_self _ _ _,
        ?_, ?_, by rw [hrun],
        alInsert apiRates base 1, by rw [hrun], alLookup_alInsert_self _ _ _,
        fun c hcb => alLookup_alInsert_ne _ _ _ _ (fun h => hcb h.symm)⟩
      · intro hne
        rw [alLookup_alInsert_ne apiRates base target 1 (fun h => hne h.symm)] at hf
        rw [alLookup_alInsert_ne _ _ _ _ (fun h => hne h.symm), hf]
        rfl
      · intro c hcb _
        rw [alLookup_alInsert_ne _ _ _ _ (fun h => hcb h.symm)]
        rfl
  | some rate =>
      have hrun : cachedGetLatestRates env base target =
          { result := .ok (alInsert (alInsert [] target rate) base 1, apiTs),
            upstreamCalls := [(base, fanOutTargets base)],
            cacheWrites := [(base, alInsert apiRates base 1, apiTs)] } := by
        simp [cachedGetLatestRates, hMiss, hApi, hf]
      refine ⟨alInsert (alInsert [] target rate) base 1, by rw [hrun],
        alLookup_alInsert_self _ _ _, ?_, ?_, by rw [hrun],
        alInsert apiRates base 1, by rw [hrun], alLookup_alInsert_self _ _ _,
        fun c hcb => alLookup_alInsert_ne _ _ _ _ (fun h => hcb h.symm)⟩
      · intro hne
        rw [alLookup_alInsert_ne apiRates base target 1 (fun h => hne h.symm)] at hf
        rw [alLookup_alInsert_ne _ _ _ _ (fun h => hne h.symm),
          alLookup_alInsert_self, hf]
      · intro c hcb hct
        rw [alLookup_alInsert_ne _ _ _ _ (fun h => hcb h.symm),
          alLookup_alInsert_ne _ _ _ _ (fun h => hct h.symm)]
        rfl

/-- Concrete instance of C2 (the claim's example): cache miss for base USD,
upstream returns {INR: 82.5, EUR: 0.9} at timestamp 11. -/
def envC2 : RepoEnv where
  cacheLatest := fun _ => none
  cacheHist := fun _ _ => none
  apiLatest := fun _ _ => .ok ([("INR", (82.5 : ℚ)), ("EUR", (0.9 : ℚ))], 11)
  apiHist := fun _ _ _ _ => .error "unreachable"

theorem getLatestRates_cacheMiss_witness :
    ∃ m : RateMap,
      (cachedGetLatestRates envC2 "USD" "INR").result = .ok (m, 11) ∧
      alLookup m "USD" = some 1 ∧
      ("INR" ≠ "USD" →
        alLookup m "INR" = alLookup [("INR", (82.5 : ℚ)), ("EUR", (0.9 : ℚ))] "INR") ∧
      (∀ c : Currency, c ≠ "USD" → c ≠ "INR" → alLookup m c = none) ∧
      (cachedGetLatestRates envC2 "USD" "INR").upstreamCalls
        = [("USD", fanOutTargets "USD")] ∧
      ∃ w : RateMap,
        (cachedGetLatestRates envC2 "USD" "INR").cacheWrites = [("USD", w, 11)] ∧
        alLookup w "USD" = some 1 ∧
        (∀ c : Currency, c ≠ "USD" →
          alLookup w c = alLookup [("INR", (82.5 : ℚ)), ("EUR", (0.9 : ℚ))] c) :=
  getLatestRates_cacheMiss envC2 "USD" "INR"
    [("INR", (82.5 : ℚ)), ("EUR", (0.9 : ℚ))] 11 rfl rfl

/-! ### Calendar dates
    time.Time at day granularity is modelled as an integer day number
    (days since 1970-01-01); `date.AddDate(0,0,1)` is `+ 1` and
    `!date.After(endDate)` is `≤`.  `time.Parse("2006-01-02", s)` is
    modelled by `parseYMD`: exactly the layout `YYYY-MM-DD` with zero-padded
    fields, a month in 1..12 and a day within the month's length. -/

/-- Gregorian leap-year test. -/
def isLeapYear (y : ℤ) : Bool :=
  y % 4 = 0 && (y % 100 ≠ 0 || y % 400 = 0)

/-- Number of days in month `m` of year `y`. -/
def daysInMonth (y : ℤ) (m : ℕ) : ℕ :=
  match m with
  | 1 => 31
  | 2 => if isLeapYear y then 29 else 28
  | 3 => 31
  | 4 => 30
  | 5 => 31
  | 6 => 30
  | 7 => 31
  | 8 => 31
  | 9 => 30
  | 10 => 31
  | 11 => 30
  | 12 => 31
  | _ => 0

/-- Day number of a civil date (days since 1970-01-01), using floor
    division (which ℤ division provides for positive divisors). -/
def civilToDays (y : ℤ) (m d : ℕ) : ℤ :=
  let y2 : ℤ := if m ≤ 2 then y - 1 else y
  let era : ℤ := y2 / 400
  let yoe : ℤ := y2 - era * 400
  let mp : ℤ := ((m : ℤ) + 9) % 12
  let doy : ℤ := (153 * mp + 2) / 5 + (d : ℤ) - 1
  let doe : ℤ := yoe * 365 + yoe / 4 - yoe / 100 + doy
  era * 146097 + doe - 719468

/-- One decimal digit. -/
def digitVal (c : Char) : Option ℕ :=
  if '0' ≤ c ∧ c ≤ '9' then some (c.toNat - '0'.toNat) else none

/-- Model of Go `time.Parse("2006-01-02", s)`: `none` is a parse error. -/
def parseYMD (s : String) : Option ℤ :=
  match s.data with
  | [y1, y2, y3, y4, s1, m1, m2, s2, d1, d2] =>
    if s1 = '-' ∧ s2 = '-' then
      match digitVal y1, digitVal y2, digitVal y3, digitVal y4,
            digitVal m1, digitVal m2, digitVal d1, digitVal d2 with
      | some a, some b, some c, some d,
        some e, some f, some g, some h =>
          let y : ℤ := (1000 * a + 100 * b + 10 * c + d : ℕ)
          let mo : ℕ := 10 * e + f
          let da : ℕ := 10 * g + h
          if 1 ≤ mo ∧ mo ≤ 12 ∧ 1 ≤ da ∧ da ≤ daysInMonth y mo then
            some (civilToDays y mo da)
          else none
      | _, _, _, _, _, _, _, _ => none
    else none
  | _ => none

/-! ### The repository's historical path
    (src/unnamed/part_002, cachedRateRepository.GetHistoricalRates) -/

/-- Date-keyed result maps: Go `map[time.Time]float64` at day granularity. -/
abbrev DateMap := List (ℤ × ℚ)

/-- Observable outcome of GetHistoricalRates: returned value, upstream
    calls issued (startDate, endDate, base, targets), and the
    (fire-and-forget) historical cache writes issued (date, base, rates). -/
structure HistOutcome where
  result : Except String DateMap
  upstreamCalls : List (ℤ × ℤ × Currency × List Currency)
  cacheWrites : List (ℤ × Currency × RateMap)
  deriving DecidableEq

/-- The per-day cache walk of GetHistoricalRates: Go
    `for date := startDate; !date.After(endDate); date = date.AddDate(0,0,1)`.
    The fuel is the exact number of remaining days, computed by the caller;
    on a hit the day is added with the target's rate (Go's zero value 0 when
    the snapshot lacks the target); on a miss the walk stops with
    `allFound = false`, keeping the accumulated map. -/
def histCacheLoop (env : RepoEnv) (base target : Currency) :
    ℕ → ℤ → DateMap → DateMap × Bool
  | 0, _, acc => (acc, true)
  | fuel + 1, date, acc =>
      match env.cacheHist date base with
      | some cachedRates =>
          histCacheLoop env base target fuel (date + 1)
            (alInsert acc date ((alLookup cachedRates target).getD 0))
      | none => (acc, false)

/-- The inner loop over one returned date's currency map: Go
    `for currency, rate := range currencyRateMap`.  Adds the target's rate
    to the result map and every rate to the shared `cacheCurrencyMap`. -/
def histInner (target : Currency) (parsedDate : ℤ) :
    RateMap → DateMap → RateMap → DateMap × RateMap
  | [], acc, cmap => (acc, cmap)
  | (currency, rate) :: rest, acc, cmap =>
      histInner target parsedDate rest
        (if currency = target then alInsert acc parsedDate rate else acc)
        (alInsert cmap currency rate)

/-- The loop over the upstream time-series response: Go
    `for date, currencyRateMap := range rates`.  A date string that fails to
    parse is skipped (`continue`); otherwise the inner loop runs and a
    `go cache.SetHistoricalRates(parsedDate, base, cacheCurrencyMap)` write
    is issued with the accumulated cache map. -/
def histUpstreamLoop (target : Currency) :
    List (String × RateMap) → DateMap → RateMap →
    DateMap × RateMap × List (ℤ × RateMap)
  | [], acc, cmap => (acc, cmap, [])
  | (dateStr, currencyRateMap) :: rest, acc, cmap =>
      match parseYMD dateStr with
      | none => histUpstreamLoop target rest acc cmap
      | some parsedDate =>
          let inner := histInner target parsedDate currencyRateMap acc cmap
          let tail := histUpstreamLoop target rest inner.1 inner.2
          (tail.1, tail.2.1, (parsedDate, inner.2) :: tail.2.2)

/-- Go: (cachedRateRepository).GetHistoricalRates (src/unnamed/part_002
    lines 74-125).  Walks the range through the cache; if every day hit,
    returns the cache-built map; otherwise fetches the whole range from
    upstream (full fan-out) in one call and extends the same accumulated
    map with the parsed upstream dates. -/
def cachedGetHistoricalRates (env : RepoEnv) (startDate endDate : ℤ)
    (base target : Currency) : HistOutcome :=
  let walk := histCacheLoop env base target
    (endDate + 1 - startDate).toNat startDate []
  if walk.2 then
    { result := .ok walk.1, upstreamCalls := [], cacheWrites := [] }
  else
    let allSupportedTargets := fanOutTargets base
    match env.apiHist startDate endDate base allSupportedTargets with
    | .error e =>
        { result := .error ("failed to fetch historical rates from API: " ++ e),
          upstreamCalls := [(startDate, endDate, base, allSupportedTargets)],
          cacheWrites := [] }
    | .ok apiRates =>
        let run := histUpstreamLoop target apiRates.rates walk.1 []
        { result := .ok run.1,
          upstreamCalls := [(startDate, endDate, base, allSupportedTargets)],
          cacheWrites := run.2.2.map (fun p => (p.1, base, p.2)) }

/-- Characterization of the cache walk when every day from `date` up to the
first missing day `dm` hits and `dm` itself misses: the walk stops with
`allFound = false` and the accumulated map holds exactly the cache-hit days
before `dm` on top of the initial accumulator. -/
theorem histCacheLoop_firstMiss (env : RepoEnv) (base target : Currency)
    (endDate dm : ℤ) (M : ℤ → RateMap) :
    ∀ (fuel : ℕ) (date : ℤ) (acc : DateMap),
    fuel = (endDate + 1 - date).toNat → date ≤ dm → dm ≤ endDate →
    (∀ x, date ≤ x → x < dm → env.cacheHist x base = some (M x)) →
    env.cacheHist dm base = none →
    (histCacheLoop env base target fuel date acc).2 = false ∧
    ∀ d, alLookup (histCacheLoop env base target fuel date acc).1 d =
      if date ≤ d ∧ d < dm then some ((alLookup (M d) target).getD 0)
      else alLookup acc d := by
  intro fuel
  induction fuel with
  | zero =>
      intro date acc hfuel hdm hde _ _
      omega
  | succ n ih =>
      intro date acc hfuel hdm hde hPre hMiss
      have hdateEnd : date ≤ endDate := by omega
      by_cases hd : date = dm
      · subst hd
        constructor
        · simp [histCacheLoop, hMiss]
        · intro d
          rw [if_neg (by omega)]
          simp [histCacheLoop, hMiss]
      · have hlt : date < dm := lt_of_le_of_ne hdm hd
        have hHit : env.cacheHist date base = some (M date) :=
          hPre date le_rfl hlt
        have hstep : histCacheLoop env base target (n + 1) date acc =
            histCacheLoop env base target n (date + 1)
              (alInsert acc date ((alLookup (M date) target).getD 0)) := by
          simp [histCacheLoop, hHit]
        have hih := ih (date + 1)
          (alInsert acc date ((alLookup (M date) target).getD 0))
          (by omega) (by omega) hde
          (fun x hx1 hx2 => hPre x (by omega) hx2) hMiss
        refine ⟨by rw [hstep]; exact hih.1, ?_⟩
        intro d
        rw [hstep, hih.2 d]
        by_cases hdd : d = date
        · subst hdd
          rw [if_neg (by omega), alLookup_alInsert_self, if_pos ⟨le_rfl, hlt⟩]
        · rw [alLookup_alInsert_ne _ _ _ _ (fun h => hdd h.symm)]
          by_cases hcnd : date + 1 ≤ d ∧ d < dm
          · rw [if_pos hcnd, if_pos (by omega)]
          · rw [if_neg hcnd, if_neg (by omega)]

/-- The inner currency loop only touches the result map at `parsedDate`. -/
theorem histInner_lookup_ne (target : Currency) (parsedDate d : ℤ)
    (hne : d ≠ parsedDate) :
    ∀ (cm : RateMap) (acc : DateMap) (cmap : RateMap),
    alLookup (histInner target parsedDate cm acc cmap).1 d = alLookup acc d := by
  intro cm
  induction cm with
  | nil => intro acc cmap; rfl
  | cons p rest ih =>
      intro acc cmap
      obtain ⟨currency, rate⟩ := p
      by_cases hct : currency = target
      · simp only [histInner, if_pos hct]
        rw [ih]
        exact alLookup_alInsert_ne _ _ _ _ (fun h => hne h.symm)
      · simp only [histInner, if_neg hct]
        exact ih _ _

/-- The upstream loop leaves the result map unchanged at every date that no
entry of the response parses to. -/
theorem histUpstreamLoop_lookup_notParsed (target : Currency) (d : ℤ) :
    ∀ (entries : List (String × RateMap)) (acc : DateMap) (cmap : RateMap),
    d ∉ entries.filterMap (fun p => parseYMD p.1) →
    alLookup (histUpstreamLoop target entries acc cmap).1 d = alLookup acc d := by
  intro entries
  induction entries with
  | nil => intro acc cmap _; rfl
  | cons p rest ih =>
      intro acc cmap hmem
      obtain ⟨dateStr, currencyRateMap⟩ := p
      cases hp : parseYMD dateStr with
      | none =>
          simp only [histUpstreamLoop, hp]
          exact ih _ _ (by simpa [List.filterMap_cons, hp] using hmem)
      | some parsedDate =>
          have hmem2 : d ≠ parsedDate ∧
              d ∉ rest.filterMap (fun p => parseYMD p.1) := by
            simpa [List.filterMap_cons, hp, not_or] using hmem
          simp only [histUpstreamLoop, hp]
          rw [ih _ _ hmem2.2]
          exact histInner_lookup_ne target parsedDate d hmem2.1 _ _ _

/-- C3 (amended) -- In GetHistoricalRates, when some day of the inclusive
range misses the cache, the whole range is fetched from upstream in one
call, but the partial results accumulated from the cache-hit days before the
first miss are NOT abandoned: they are kept in the same map and upstream
entries are merged over them, so every day the upstream response does not
(parseably) cover keeps exactly its cache-derived entry. -/
theorem getHistoricalRates_missMergesPartial (env : RepoEnv)
    (startDate endDate dm : ℤ) (base target : Currency) (M : ℤ → RateMap)
    (resp : HistoricalTimeSeriesRatesResponse)
    (hsd : startDate ≤ dm) (hde : dm ≤ endDate)
    (hPre : ∀ x, startDate ≤ x → x < dm → env.cacheHist x base = some (M x))
    (hMiss : env.cacheHist dm base = none)
    (hApi : env.apiHist startDate endDate base (fanOutTargets base) = .ok resp) :
    (cachedGetHistoricalRates env startDate endDate base target).upstreamCalls
      = [(startDate, endDate, base, fanOutTargets base)] ∧
    ∃ m : DateMap,
      (cachedGetHistoricalRates env startDate endDate base target).result
        = .ok m ∧
      ∀ d, d ∉ resp.rates.filterMap (fun p => parseYMD p.1) →
        alLookup m d =
          if startDate ≤ d ∧ d < dm
          then some ((alLookup (M d) target).getD 0)
          else none := by
  have hwalk := histCacheLoop_firstMiss env base target endDate dm M
    ((endDate + 1 - startDate).toNat) startDate [] rfl hsd hde hPre hMiss
  have hrun : cachedGetHistoricalRates env startDate endDate base target =
      { result := .ok (histUpstreamLoop target resp.rates
          (histCacheLoop env base target
            ((endDate + 1 - startDate).toNat) startDate []).1 []).1,
        upstreamCalls := [(startDate, endDate, base, fanOutTargets base)],
        cacheWrites := (histUpstreamLoop target resp.rates
          (histCacheLoop env base target
            ((endDate + 1 - startDate).toNat) startDate []).1 []).2.2.map
          (fun p => (p.1, base, p.2)) } := by
    simp [cachedGetHistoricalRates, hwalk.1, hApi]
  refine ⟨by rw [hrun], _, by rw [hrun], ?_⟩
  intro d hmem
  rw [histUpstreamLoop_lookup_notParsed target d resp.rates _ [] hmem,
    hwalk.2 d]
  rfl

/-- Concrete environment refuting C3 as stated: day d1 = 2024-05-07 is a
cache hit {INR: 5}, day d2 = 2024-05-08 misses; upstream returns rates only
for d2. -/
def envC3 : RepoEnv where
  cacheLatest := fun _ => none
  cacheHist := fun d _ =>
    if d = civilToDays 2024 5 7 then some [("INR", (5 : ℚ))] else none
  apiLatest := fun _ _ => .error "unreachable"
  apiHist := fun _ _ _ _ =>
    .ok ⟨1, "USD", "2024-05-07", "2024-05-08",
      [("2024-05-08", [("INR", (9 : ℚ))])]⟩

/-- C3 counterexample -- with envC3, day 2024-05-08 is a cache miss, the
upstream response covers only 2024-05-08, and yet the returned map still
contains the cache-derived entry (2024-05-07, 5) merged with the
upstream-derived entry (2024-05-08, 9): the partial results were not
abandoned and the result IS a merge of cache-hit and upstream-fetched
days. -/
theorem getHistoricalRates_partialAbandon_counterexample :
    envC3.cacheHist (civilToDays 2024 5 7 + 1) "USD" = none ∧
    (envC3.apiHist (civilToDays 2024 5 7) (civilToDays 2024 5 7 + 1) "USD"
      (fanOutTargets "USD")).map
        (fun r => r.rates.filterMap (fun p => parseYMD p.1))
      = .ok [civilToDays 2024 5 7 + 1] ∧
    (cachedGetHistoricalRates envC3 (civilToDays 2024 5 7)
      (civilToDays 2024 5 7 + 1) "USD" "INR").result
      = .ok [(civilToDays 2024 5 7, 5), (civilToDays 2024 5 7 + 1, 9)] ∧
    alLookup [((civilToDays 2024 5 7 : ℤ), (5 : ℚ)),
      (civilToDays 2024 5 7 + 1, 9)] (civilToDays 2024 5 7) = some 5 := by
  refine ⟨rfl, by decide, by decide, by decide⟩

theorem getHistoricalRates_missMergesPartial_witness :
    (cachedGetHistoricalRates envC3 (civilToDays 2024 5 7)
      (civilToDays 2024 5 7 + 1) "USD" "INR").upstreamCalls
      = [(civilToDays 2024 5 7, civilToDays 2024 5 7 + 1, "USD",
          fanOutTargets "USD")] ∧
    ∃ m : DateMap,
      (cachedGetHistoricalRates envC3 (civilToDays 2024 5 7)
        (civilToDays 2024 5 7 + 1) "USD" "INR").result = .ok m ∧
      ∀ d, d ∉ (["2024-05-08"].map
          (fun s => (s, [("INR", (9 : ℚ))]))).filterMap
          (fun p => parseYMD p.1) →
        alLookup m d =
          if civilToDays 2024 5 7 ≤ d ∧ d < civilToDays 2024 5 7 + 1
          then some ((alLookup [("INR", (5 : ℚ))] "INR").getD 0)
          else none :=
  getHistoricalRates_missMergesPartial envC3 (civilToDays 2024 5 7)
    (civilToDays 2024 5 7 + 1) (civilToDays 2024 5 7 + 1) "USD" "INR"
    (fun _ => [("INR", (5 : ℚ))])
    ⟨1, "USD", "2024-05-07", "2024-05-08", [("2024-05-08", [("INR", (9 : ℚ))])]⟩
    (by omega) (by omega)
    (fun x hx1 hx2 => by
      have hx : x = civilToDays 2024 5 7 := by omega
      subst hx
      simp [envC3])
    (by simp [envC3]) rfl

/-- Characterization of the cache walk when every day of the range hits:
the walk reports `allFound = true` and accumulates, for every day of the
range, the target's cached rate with Go's zero value 0 as default when the
snapshot lacks the target. -/
theorem histCacheLoop_allHit (env : RepoEnv) (base target : Currency)
    (endDate : ℤ) (M : ℤ → RateMap) :
    ∀ (fuel : ℕ) (date : ℤ) (acc : DateMap),
    fuel = (endDate + 1 - date).toNat →
    (∀ x, date ≤ x → x ≤ endDate → env.cacheHist x base = some (M x)) →
    (histCacheLoop env base target fuel date acc).2 = true ∧
    ∀ d, alLookup (histCacheLoop env base target fuel date acc).1 d =
      if date ≤ d ∧ d ≤ endDate then some ((alLookup (M d) target).getD 0)
      else alLookup acc d := by
  intro fuel
  induction fuel with
  | zero =>
      intro date acc hfuel _
      refine ⟨rfl, ?_⟩
      intro d
      rw [if_neg (by omega)]
      rfl
  | succ n ih =>
      intro date acc hfuel hPre
      have hdateEnd : date ≤ endDate := by omega
      have hHit : env.cacheHist date base = some (M date) :=
        hPre date le_rfl hdateEnd
      have hstep : histCacheLoop env base target (n + 1) date acc =
          histCacheLoop env base target n (date + 1)
            (alInsert acc date ((alLookup (M date) target).getD 0)) := by
        simp [histCacheLoop, hHit]
      have hih := ih (date + 1)
        (alInsert acc date ((alLookup (M date) target).getD 0))
        (by omega) (fun x hx1 hx2 => hPre x (by omega) hx2)
      refine ⟨by rw [hstep]; exact hih.1, ?_⟩
      intro d
      rw [hstep, hih.2 d]
      by_cases hdd : d = date
      · subst hdd
        rw [if_neg (by omega), alLookup_alInsert_self,
          if_pos ⟨le_rfl, hdateEnd⟩]
      · rw [alLookup_alInsert_ne _ _ _ _ (fun h => hdd h.symm)]
        by_cases hcnd : date + 1 ≤ d ∧ d ≤ endDate
        · rw [if_pos hcnd, if_pos (by omega)]
        · rw [if_neg hcnd, if_neg (by omega)]

/-- C4 (amended) -- When every day of the inclusive range is a cache hit,
GetHistoricalRates answers strictly from cache with no upstream call and no
cache write, and each day of the range is mapped to the target's cached
rate — with the Go zero value 0 as the entry when the cached snapshot for
that day lacks the target: the day's key is present with value 0, not
missing, and there is no error. -/
theorem getHistoricalRates_allHit_zeroForAbsentTarget (env : RepoEnv)
    (startDate endDate : ℤ) (base target : Currency) (M : ℤ → RateMap)
    (hAll : ∀ x, startDate ≤ x → x ≤ endDate →
      env.cacheHist x base = some (M x)) :
    ∃ m : DateMap,
      (cachedGetHistoricalRates env startDate endDate base target).result
        = .ok m ∧
      (∀ d, alLookup m d =
        if startDate ≤ d ∧ d ≤ endDate
        then some ((alLookup (M d) target).getD 0)
        else none) ∧
      (cachedGetHistoricalRates env startDate endDate base target).upstreamCalls
        = [] ∧
      (cachedGetHistoricalRates env startDate endDate base target).cacheWrites
        = [] := by
  have hwalk := histCacheLoop_allHit env base target endDate M
    ((endDate + 1 - startDate).toNat) startDate [] rfl hAll
  have hrun : cachedGetHistoricalRates env startDate endDate base target =
      { result := .ok (histCacheLoop env base target
          ((endDate + 1 - startDate).toNat) startDate []).1,
        upstreamCalls := [], cacheWrites := [] } := by
    simp [cachedGetHistoricalRates, hwalk.1]
  refine ⟨_, by rw [hrun], ?_, by rw [hrun], by rw [hrun]⟩
  intro d
  rw [hwalk.2 d]
  rfl

/-- Concrete environment refuting C4 as stated: the single day 2024-05-07
is a cache hit whose snapshot {EUR: 2} does not contain the target INR. -/
def envC4 : RepoEnv where
  cacheLatest := fun _ => none
  cacheHist := fun _ _ => some [("EUR", (2 : ℚ))]
  apiLatest := fun _ _ => .error "unreachable"
  apiHist := fun _ _ _ _ => .error "unreachable"

/-- C4 counterexample -- with envC4, every day of the one-day range
2024-05-07 is a cache hit and the cached snapshot has no INR key, yet the
returned map contains the entry (2024-05-07, 0): the day's key IS present,
with a zero-valued entry, where the claim says the result map simply has no
entry for that day. -/
theorem getHistoricalRates_absentTarget_counterexample :
    envC4.cacheHist (civilToDays 2024 5 7) "USD" = some [("EUR", (2 : ℚ))] ∧
    alLookup [("EUR", (2 : ℚ))] "INR" = none ∧
    (cachedGetHistoricalRates envC4 (civilToDays 2024 5 7)
      (civilToDays 2024 5 7) "USD" "INR").result
      = .ok [(civilToDays 2024 5 7, 0)] ∧
    alLookup [((civilToDays 2024 5 7 : ℤ), (0 : ℚ))] (civilToDays 2024 5 7)
      = some 0 := by
  refine ⟨rfl, rfl, by decide, by decide⟩

theorem getHistoricalRates_allHit_zeroForAbsentTarget_witness :
    ∃ m : DateMap,
      (cachedGetHistoricalRates envC4 (civilToDays 2024 5 7)
        (civilToDays 2024 5 7) "USD" "INR").result = .ok m ∧
      (∀ d, alLookup m d =
        if civilToDays 2024 5 7 ≤ d ∧ d ≤ civilToDays 2024 5 7
        then some ((alLookup [("EUR", (2 : ℚ))] "INR").getD 0)
        else none) ∧
      (cachedGetHistoricalRates envC4 (civilToDays 2024 5 7)
        (civilToDays 2024 5 7) "USD" "INR").upstreamCalls = [] ∧
      (cachedGetHistoricalRates envC4 (civilToDays 2024 5 7)
        (civilToDays 2024 5 7) "USD" "INR").cacheWrites = [] :=
  getHistoricalRates_allHit_zeroForAbsentTarget envC4 (civilToDays 2024 5 7)
    (civilToDays 2024 5 7) "USD" "INR" (fun _ => [("EUR", (2 : ℚ))])
    (fun _ _ _ => rfl)

/-- Every historical cache write issued by the upstream loop is keyed by a
date that some response entry successfully parses to. -/
theorem histUpstreamLoop_writes_parsed (target : Currency) :
    ∀ (entries : List (String × RateMap)) (acc : DateMap) (cmap : RateMap)
      (w : ℤ × RateMap),
    w ∈ (histUpstreamLoop target entries acc cmap).2.2 →
    w.1 ∈ entries.filterMap (fun p => parseYMD p.1) := by
  intro entries
  induction entries with
  | nil => intro acc cmap w hw; cases hw
  | cons p rest ih =>
      intro acc cmap w hw
      obtain ⟨dateStr, currencyRateMap⟩ := p
      cases hp : parseYMD dateStr with
      | none =>
          rw [histUpstreamLoop, hp] at hw
          simpa [List.filterMap_cons, hp] using ih _ _ w hw
      | some parsedDate =>
          rw [histUpstreamLoop, hp] at hw
          simp only [List.mem_cons] at hw
          rcases hw with hw | hw
          · simp [List.filterMap_cons, hp, hw]
          · simpa [List.filterMap_cons, hp] using Or.inr (ih _ _ w hw)

/-- Concrete environment for C5: total cache miss, upstream returns a batch
with one malformed date string and one good one. -/
def envC5 : RepoEnv where
  cacheLatest := fun _ => none
  cacheHist := fun _ _ => none
  apiLatest := fun _ _ => .error "unreachable"
  apiHist := fun _ _ _ _ =>
    .ok ⟨1, "USD", "2024-05-07", "2024-05-07",
      [("bad-date", [("INR", (81 : ℚ))]), ("2024-05-07", [("INR", (81 : ℚ))])]⟩

/-- C5 -- On the upstream historical path, a date string that fails to parse
in the fixed YYYY-MM-DD format contributes nothing: the operation still
returns a map (never aborts), every upstream-contributed key of the result
and every issued cache write stems from a successfully parsed date string,
and concretely a batch of {"bad-date", "2024-05-07"} yields a result map and
a cache write containing only the good date. -/
theorem getHistoricalRates_skipsBadDates (env : RepoEnv) (sd ed : ℤ)
    (base target : Currency) (resp : HistoricalTimeSeriesRatesResponse)
    (hApi : env.apiHist sd ed base (fanOutTargets base) = .ok resp)
    (hMissWalk :
      (histCacheLoop env base target ((ed + 1 - sd).toNat) sd []).2 = false) :
    (∃ m : DateMap,
      (cachedGetHistoricalRates env sd ed base target).result = .ok m ∧
      ∀ d, alLookup m d ≠ none →
        alLookup (histCacheLoop env base target
          ((ed + 1 - sd).toNat) sd []).1 d ≠ none ∨
        d ∈ resp.rates.filterMap (fun p => parseYMD p.1)) ∧
    (∀ w, w ∈ (cachedGetHistoricalRates env sd ed base target).cacheWrites →
      w.1 ∈ resp.rates.filterMap (fun p => parseYMD p.1)) ∧
    (cachedGetHistoricalRates envC5 (civilToDays 2024 5 7)
      (civilToDays 2024 5 7) "USD" "INR").result
      = .ok [(civilToDays 2024 5 7, 81)] ∧
    (cachedGetHistoricalRates envC5 (civilToDays 2024 5 7)
      (civilToDays 2024 5 7) "USD" "INR").cacheWrites
      = [(civilToDays 2024 5 7, "USD", [("INR", 81)])] := by
  have hrun : cachedGetHistoricalRates env sd ed base target =
      { result := .ok (histUpstreamLoop target resp.rates
          (histCacheLoop env base target ((ed + 1 - sd).toNat) sd []).1 []).1,
        upstreamCalls := [(sd, ed, base, fanOutTargets base)],
        cacheWrites := (histUpstreamLoop target resp.rates
          (histCacheLoop env base target
            ((ed + 1 - sd).toNat) sd []).1 []).2.2.map
          (fun p => (p.1, base, p.2)) } := by
    simp [cachedGetHistoricalRates, hMissWalk, hApi]
  refine ⟨⟨_, by rw [hrun], ?_⟩, ?_, by decide, by decide⟩
  · intro d hne
    by_cases hd : d ∈ resp.rates.filterMap (fun p => parseYMD p.1)
    · exact Or.inr hd
    · rw [histUpstreamLoop_lookup_notParsed target d resp.rates _ [] hd] at hne
      exact Or.inl hne
  · intro w hw
    rw [hrun] at hw
    simp only [List.mem_map] at hw
    obtain ⟨p, hp, hpw⟩ := hw
    have := histUpstreamLoop_writes_parsed target resp.rates _ [] p hp
    rw [← hpw]
    exact this

theorem getHistoricalRates_skipsBadDates_witness :
    (∃ m : DateMap,
      (cachedGetHistoricalRates envC5 (civilToDays 2024 5 7)
        (civilToDays 2024 5 7) "USD" "INR").result = .ok m ∧
      ∀ d, alLookup m d ≠ none →
        alLookup (histCacheLoop envC5 "USD" "INR"
          ((civilToDays 2024 5 7 + 1 - civilToDays 2024 5 7).toNat)
          (civilToDays 2024 5 7) []).1 d ≠ none ∨
        d ∈ ([("bad-date", [("INR", (81 : ℚ))]),
          ("2024-05-07", [("INR", (81 : ℚ))])] :
            List (String × RateMap)).filterMap (fun p => parseYMD p.1)) ∧
    (∀ w, w ∈ (cachedGetHistoricalRates envC5 (civilToDays 2024 5 7)
        (civilToDays 2024 5 7) "USD" "INR").cacheWrites →
      w.1 ∈ ([("bad-date", [("INR", (81 : ℚ))]),
        ("2024-05-07", [("INR", (81 : ℚ))])] :
          List (String × RateMap)).filterMap (fun p => parseYMD p.1)) ∧
    (cachedGetHistoricalRates envC5 (civilToDays 2024 5 7)
      (civilToDays 2024 5 7) "USD" "INR").result
      = .ok [(civilToDays 2024 5 7, 81)] ∧
    (cachedGetHistoricalRates envC5 (civilToDays 2024 5 7)
      (civilToDays 2024 5 7) "USD" "INR").cacheWrites
      = [(civilToDays 2024 5 7, "USD", [("INR", 81)])] :=
  getHistoricalRates_skipsBadDates envC5 (civilToDays 2024 5 7)
    (civilToDays 2024 5 7) "USD" "INR"
    ⟨1, "USD", "2024-05-07", "2024-05-07",
      [("bad-date", [("INR", (81 : ℚ))]), ("2024-05-07", [("INR", (81 : ℚ))])]⟩
    rfl (by decide)

/-! ### Redis store, RedisLock (internals/adapter/cache/redis_lock.go)
    Time is modelled in milliseconds as ℤ.  A Redis value carries its expiry
    time; reads treat an expired entry as absent (Redis lazy expiry).  JSON
    serialization by the external encoding/json library is modelled by the
    injective constructors of `RedisVal`: a stored payload deserializes back
    to itself, and a payload of the wrong shape fails to unmarshal. -/

/-- A stored Redis value: a lock holder token string, or a JSON payload. -/
inductive RedisVal where
  | str : String → RedisVal
  | latestJson : RateMap → ℤ → RedisVal
  | histJson : RateMap → RedisVal
  deriving DecidableEq

/-- The key-value store: key to (value, absolute expiry time). -/
abbrev RedisState := String → Option (RedisVal × ℤ)

/-- Redis GET at time `now`: an expired entry reads as absent. -/
def redisGet (st : RedisState) (now : ℤ) (key : String) : Option RedisVal :=
  match st key with
  | some (v, expiry) => if now < expiry then some v else none
  | none => none

/-- Redis SET key value NX with TTL: sets only when the key is absent
    (or expired), returning whether the set happened. -/
def redisSetNX (st : RedisState) (now : ℤ) (key : String) (v : RedisVal)
    (ttl : ℤ) : Bool × RedisState :=
  match redisGet st now key with
  | some _ => (false, st)
  | none => (true, fun k => if k = key then some (v, now + ttl) else st k)

/-- Redis SET with TTL (unconditional). -/
def redisSet (st : RedisState) (now : ℤ) (key : String) (v : RedisVal)
    (ttl : ℤ) : RedisState :=
  fun k => if k = key then some (v, now + ttl) else st k

/-- Redis DEL. -/
def redisDel (st : RedisState) (key : String) : RedisState :=
  fun k => if k = key then none else st k

/-- Go: RedisLock (redis_lock.go); `value` is the unique uuid token chosen
    at NewRedisLock, `ttl` the bounded lifetime in milliseconds. -/
structure RedisLock where
  key : String
  value : String
  ttl : ℤ

/-- Observable outcome of RedisLock.Acquire: the success flag and error,
    the store afterwards, the time at which the call returned, and the
    number of SetNX attempts made. -/
structure AcquireOutcome where
  ok : Bool
  err : Option String
  state : RedisState
  now : ℤ
  attempts : ℕ

/-- The retry loop of RedisLock.Acquire: try `SetNX`; on success return
    true; otherwise return a timeout error if the deadline has passed,
    else sleep 100ms and retry.  The fuel is an upper bound on the number
    of iterations, computed exactly by `RedisLock.Acquire`; the loop always
    returns before exhausting it. -/
def acquireLoop (l : RedisLock) (deadline : ℤ) :
    ℕ → RedisState → ℤ → ℕ → AcquireOutcome
  | 0, st, t, attempts =>
      ⟨false, some "timeout acquiring redis lock", st, t, attempts⟩
  | fuel + 1, st, t, attempts =>
      match redisSetNX st t l.key (.str l.value) l.ttl with
      | (true, st2) => ⟨true, none, st2, t, attempts + 1⟩
      | (false, st2) =>
          if deadline < t then
            ⟨false, some "timeout acquiring redis lock", st2, t, attempts + 1⟩
          else
            acquireLoop l deadline fuel st2 (t + 100) (attempts + 1)

/-- Go: (RedisLock).Acquire (redis_lock.go lines 32-52).  The deadline is
    `now + maxWait`; iterations advance time by the 100ms backoff sleep.
    The fuel `maxWait.toNat / 100 + 2` is exactly the number of iterations
    the Go loop can reach: attempts happen at now + 100·i while the
    previous attempt time was ≤ deadline, plus the final past-deadline
    attempt. -/
def RedisLock.Acquire (l : RedisLock) (st : RedisState) (now maxWait : ℤ) :
    AcquireOutcome :=
  acquireLoop l (now + maxWait) (maxWait.toNat / 100 + 2) st now 0

/-- Go: (RedisLock).Release (redis_lock.go lines 55-71): the Lua script
    atomically deletes the key only when the stored value equals this
    instance's token; otherwise it leaves the store untouched and the
    non-ownership case is only logged (`res == 0`), never an error. -/
def RedisLock.Release (l : RedisLock) (st : RedisState) (now : ℤ) :
    RedisState × Option String :=
  if redisGet st now l.key = some (.str l.value) then
    (redisDel st l.key, none)
  else
    (st, none)

/-- C6 -- Release deletes the lock key exactly when the stored value still
equals this instance's own token: in the ownership case only the lock key
is removed and every other key is untouched; in every other case (value
differs or key absent/expired) the store is left completely unchanged; and
Release never returns an error. -/
theorem release_checkAndDelete (l : RedisLock) (st : RedisState) (now : ℤ) :
    (l.Release st now).2 = none ∧
    (redisGet st now l.key = some (.str l.value) →
      (l.Release st now).1 l.key = none ∧
      ∀ k, k ≠ l.key → (l.Release st now).1 k = st k) ∧
    (redisGet st now l.key ≠ some (.str l.value) →
      (l.Release st now).1 = st) := by
  by_cases h : redisGet st now l.key = some (.str l.value)
  · refine ⟨by simp [RedisLock.Release, h], fun _ => ⟨?_, ?_⟩, fun hc => absurd h hc⟩
    · simp [RedisLock.Release, h, redisDel]
    · intro k hk
      simp [RedisLock.Release, h, redisDel, hk]
  · exact ⟨by simp [RedisLock.Release, h], fun hc => absurd hc h,
      fun _ => by simp [RedisLock.Release, h]⟩

/-- The store used by the C6 witness: "mylock" holds token "tok1" until
time 1000. -/
def stC6 : RedisState :=
  fun k => if k = "mylock" then some (.str "tok1", 1000) else none

theorem release_checkAndDelete_witness :
    ((RedisLock.mk "mylock" "tok1" 5000).Release stC6 0).2 = none ∧
    ((RedisLock.mk "mylock" "tok1" 5000).Release stC6 0).1 "mylock" = none ∧
    ((RedisLock.mk "mylock" "tok2" 5000).Release stC6 0).1 = stC6 := by
  refine ⟨(release_checkAndDelete (RedisLock.mk "mylock" "tok1" 5000) stC6 0).1,
    ((release_checkAndDelete (RedisLock.mk "mylock" "tok1" 5000) stC6 0).2.1
      (by decide)).1,
    (release_checkAndDelete (RedisLock.mk "mylock" "tok2" 5000) stC6 0).2.2
      (by decide)⟩

/-- A first SetNX attempt on a free (absent or expired) key succeeds
immediately: Acquire returns held, no error, at the very same time, after a
single attempt, having installed its own token with its TTL. -/
theorem acquire_free_key (l : RedisLock) (st : RedisState) (now maxWait : ℤ)
    (hfree : redisGet st now l.key = none) :
    l.Acquire st now maxWait =
      ⟨true, none,
        fun k => if k = l.key then some (.str l.value, now + l.ttl) else st k,
        now, 1⟩ := by
  have h2 : maxWait.toNat / 100 + 2 = (maxWait.toNat / 100 + 1) + 1 := rfl
  rw [RedisLock.Acquire, h2]
  simp [acquireLoop, redisSetNX, hfree]

/-- C10 -- Acquire always performs a set-if-absent attempt before checking
its deadline: for every maxWait (including zero and negative values),
Acquire on a currently-free key succeeds with no error, and a returned
timeout error implies the key was held (unexpired) at the first attempt. -/
theorem acquire_attemptBeforeDeadline (l : RedisLock) (st : RedisState)
    (now maxWait : ℤ) :
    (redisGet st now l.key = none →
      (l.Acquire st now maxWait).ok = true ∧
      (l.Acquire st now maxWait).err = none) ∧
    ((l.Acquire st now maxWait).err.isSome = true →
      redisGet st now l.key ≠ none) := by
  constructor
  · intro hfree
    rw [acquire_free_key l st now maxWait hfree]
    exact ⟨rfl, rfl⟩
  · intro herr
    intro hfree
    rw [acquire_free_key l st now maxWait hfree] at herr
    simp at herr

theorem acquire_attemptBeforeDeadline_witness :
    (((RedisLock.mk "mylock" "tok1" 30000).Acquire (fun _ => none) 0 (-5)).ok
      = true ∧
     ((RedisLock.mk "mylock" "tok1" 30000).Acquire (fun _ => none) 0 (-5)).err
      = none) ∧
    (((RedisLock.mk "mylock" "tok1" 30000).Acquire stC6 0 (-5)).err.isSome
        = true →
      redisGet stC6 0 "mylock" ≠ none) :=
  ⟨(acquire_attemptBeforeDeadline
      (RedisLock.mk "mylock" "tok1" 30000) (fun _ => none) 0 (-5)).1 rfl,
   (acquire_attemptBeforeDeadline
      (RedisLock.mk "mylock" "tok1" 30000) stC6 0 (-5)).2⟩

/-- While the key stays held (unexpired) through every possible attempt
time, the acquire loop fails every SetNX, leaves the store unchanged, and
returns the timeout error strictly after the deadline. -/
theorem acquireLoop_timeout (l : RedisLock) (deadline : ℤ) (st : RedisState)
    (hheld : ∀ u : ℤ, u ≤ deadline + 100 → redisGet st u l.key ≠ none) :
    ∀ (fuel : ℕ) (t : ℤ) (attempts : ℕ),
    t ≤ deadline + 100 →
    (t ≤ deadline → (deadline - t).toNat / 100 + 2 ≤ fuel) →
    (deadline < t → 1 ≤ fuel) →
    ∃ tEnd aEnd, acquireLoop l deadline fuel st t attempts =
      ⟨false, some "timeout acquiring redis lock", st, tEnd, aEnd⟩ ∧
      deadline < tEnd := by
  intro fuel
  induction fuel with
  | zero =>
      intro t attempts ht h2 h3
      by_cases htd : t ≤ deadline
      · have := h2 htd
        omega
      · have := h3 (by omega)
        omega
  | succ n ih =>
      intro t attempts ht h2 h3
      have hget := hheld t ht
      cases hg : redisGet st t l.key with
      | none => exact absurd hg hget
      | some v =>
          by_cases hdl : deadline < t
          · refine ⟨t, attempts + 1, ?_, hdl⟩
            simp [acquireLoop, redisSetNX, hg, hdl]
          · have hrec := ih (t + 100) (attempts + 1) (by omega)
              (fun h => by
                have := h2 (by omega)
                omega)
              (fun h => by
                have := h2 (by omega)
                omega)
            obtain ⟨tEnd, aEnd, heq, hgt⟩ := hrec
            refine ⟨tEnd, aEnd, ?_, hgt⟩
            rw [show acquireLoop l deadline (n + 1) st t attempts =
              acquireLoop l deadline n st (t + 100) (attempts + 1) from by
                simp [acquireLoop, redisSetNX, hg, hdl]]
            exact heq

/-- C7 -- Mutual exclusion of the Redis lock under the discrete-time model:
(1) while a holder's token sits unexpired under the key, a second lock
instance's Acquire with a maxWait that elapses before the expiry fails every
set-if-absent attempt, leaves the store unchanged, and returns not-acquired
with the timeout error strictly after its deadline; (2) after the holder
Releases (while still owner), a subsequent Acquire on the freed key succeeds
immediately with no error; (3) once the holder's TTL has elapsed without
release, a new Acquire succeeds at its very first attempt — returning at its
start time, without waiting out maxWait. -/
theorem redisLock_exclusion_release_ttl (k v1 v2 : String)
    (ttl1 ttl2 e1 : ℤ) (st : RedisState) (t w tr t2 w2 t3 w3 : ℤ) :
    (st k = some (.str v1, e1) → 0 ≤ w → t + w + 100 < e1 →
      ((RedisLock.mk k v2 ttl2).Acquire st t w).ok = false ∧
      ((RedisLock.mk k v2 ttl2).Acquire st t w).err
        = some "timeout acquiring redis lock" ∧
      ((RedisLock.mk k v2 ttl2).Acquire st t w).state = st ∧
      t + w < ((RedisLock.mk k v2 ttl2).Acquire st t w).now) ∧
    (redisGet st tr k = some (.str v1) →
      ((RedisLock.mk k v2 ttl2).Acquire
          ((RedisLock.mk k v1 ttl1).Release st tr).1 t2 w2).ok = true ∧
      ((RedisLock.mk k v2 ttl2).Acquire
          ((RedisLock.mk k v1 ttl1).Release st tr).1 t2 w2).err = none ∧
      ((RedisLock.mk k v2 ttl2).Acquire
          ((RedisLock.mk k v1 ttl1).Release st tr).1 t2 w2).now = t2) ∧
    (st k = some (.str v1, e1) → e1 ≤ t3 →
      ((RedisLock.mk k v2 ttl2).Acquire st t3 w3).ok = true ∧
      ((RedisLock.mk k v2 ttl2).Acquire st t3 w3).err = none ∧
      ((RedisLock.mk k v2 ttl2).Acquire st t3 w3).now = t3) := by
  refine ⟨?_, ?_, ?_⟩
  · intro hheld hw hexp
    have hkey : ∀ u : ℤ, u ≤ (t + w) + 100 → redisGet st u k ≠ none := by
      intro u hu
      simp only [redisGet, hheld]
      rw [if_pos (show u < e1 by omega)]
      exact fun hc => Option.noConfusion hc
    have hrun := acquireLoop_timeout (RedisLock.mk k v2 ttl2) (t + w) st hkey
      (w.toNat / 100 + 2) t 0 (by omega)
      (fun _ => by omega) (fun _ => by omega)
    obtain ⟨tEnd, aEnd, heq, hgt⟩ := hrun
    have hacq : (RedisLock.mk k v2 ttl2).Acquire st t w =
        ⟨false, some "timeout acquiring redis lock", st, tEnd, aEnd⟩ := by
      rw [RedisLock.Acquire]
      exact heq
    rw [hacq]
    exact ⟨rfl, rfl, rfl, hgt⟩
  · intro hown
    have hdel : ((RedisLock.mk k v1 ttl1).Release st tr).1 = redisDel st k := by
      simp [RedisLock.Release, hown]
    have hfree : redisGet (((RedisLock.mk k v1 ttl1).Release st tr).1) t2 k
        = none := by
      rw [hdel, redisGet, redisDel]
      simp
    rw [acquire_free_key _ _ _ _ hfree]
    exact ⟨rfl, rfl, rfl⟩
  · intro hheld hexp
    have hfree : redisGet st t3 k = none := by
      simp only [redisGet, hheld]
      rw [if_neg (show ¬t3 < e1 by omega)]
    rw [acquire_free_key _ _ _ _ hfree]
    exact ⟨rfl, rfl, rfl⟩

/-- The held store for the C7 witness: "mylock" holds token "a" until time
5000. -/
def stC7 : RedisState :=
  fun kk => if kk = "mylock" then some (.str "a", 5000) else none

theorem redisLock_exclusion_release_ttl_witness :
    (((RedisLock.mk "mylock" "b" 30000).Acquire stC7 0 500).ok = false ∧
     ((RedisLock.mk "mylock" "b" 30000).Acquire stC7 0 500).err
       = some "timeout acquiring redis lock" ∧
     ((RedisLock.mk "mylock" "b" 30000).Acquire stC7 0 500).state = stC7 ∧
     (0 + 500 : ℤ) < ((RedisLock.mk "mylock" "b" 30000).Acquire stC7 0 500).now) ∧
    (((RedisLock.mk "mylock" "b" 30000).Acquire
        ((RedisLock.mk "mylock" "a" 30000).Release stC7 100).1 200 1000).ok
          = true ∧
     ((RedisLock.mk "mylock" "b" 30000).Acquire
        ((RedisLock.mk "mylock" "a" 30000).Release stC7 100).1 200 1000).err
          = none ∧
     ((RedisLock.mk "mylock" "b" 30000).Acquire
        ((RedisLock.mk "mylock" "a" 30000).Release stC7 100).1 200 1000).now
          = 200) ∧
    (((RedisLock.mk "mylock" "b" 30000).Acquire stC7 6000 1000).ok = true ∧
     ((RedisLock.mk "mylock" "b" 30000).Acquire stC7 6000 1000).err = none ∧
     ((RedisLock.mk "mylock" "b" 30000).Acquire stC7 6000 1000).now = 6000) :=
  ⟨(redisLock_exclusion_release_ttl "mylock" "a" "b" 30000 30000 5000 stC7
      0 500 100 200 1000 6000 1000).1 (by decide) (by decide) (by decide),
   (redisLock_exclusion_release_ttl "mylock" "a" "b" 30000 30000 5000 stC7
      0 500 100 200 1000 6000 1000).2.1 (by decide),
   (redisLock_exclusion_release_ttl "mylock" "a" "b" 30000 30000 5000 stC7
      0 500 100 200 1000 6000 1000).2.2 (by decide) (by decide)⟩

/-! ### redisCache (internals/adapter/cache/redis_cache.go) -/

/-- Go: latestRatesKey — fmt.Sprintf("latest:%s", base). -/
def latestRatesKey (base : Currency) : String := "latest:" ++ base

/-- The TTL configuration of redisCache (milliseconds). -/
structure RedisCacheCfg where
  latestRateTTL : ℤ
  historicalRateTTL : ℤ

theorem latestRatesKey_ne_lockKey (base : Currency) :
    latestRatesKey base ≠ "cache_write_lock" := by
  intro h
  have hd : ("latest:" ++ base).data = "cache_write_lock".data :=
    congrArg String.data h
  rw [String.data_append] at hd
  simp at hd

/-- Go: (redisCache).SetLatestRates (redis_cache.go lines 49-87): create a
    fresh lock on "cache_write_lock" (TTL 30s) with a fresh uuid token,
    Acquire with maxWait 10s; on failure skip the write; on success marshal
    `{rates, timestamp}` and SET it under `latest:<BASE>` with the
    configured TTL, then Release the lock (deferred).  Returns the store
    afterwards and the time at which the write path ran. -/
def redisCacheSetLatestRates (cfg : RedisCacheCfg) (uuid : String)
    (st : RedisState) (now : ℤ) (base : Currency) (rates : RateMap)
    (timestamp : ℤ) : RedisState × ℤ :=
  let a := (RedisLock.mk "cache_write_lock" uuid 30000).Acquire st now 10000
  if a.ok then
    let st1 := redisSet a.state a.now (latestRatesKey base)
      (.latestJson rates timestamp) cfg.latestRateTTL
    (((RedisLock.mk "cache_write_lock" uuid 30000).Release st1 a.now).1, a.now)
  else
    (a.state, a.now)

/-- Go: (redisCache).GetLatestRates (redis_cache.go lines 89-114): GET
    `latest:<BASE>`; a missing key or an unmarshal failure both yield
    (nil, zero time, false); otherwise the stored rates and timestamp with
    found = true. -/
def redisCacheGetLatestRates (st : RedisState) (now : ℤ) (base : Currency) :
    RateMap × ℤ × Bool :=
  match redisGet st now (latestRatesKey base) with
  | some (.latestJson rates ts) => (rates, ts, true)
  | some _ => ([], 0, false)
  | none => ([], 0, false)

/-- C8 -- SetLatestRates(base, R, t) immediately followed by
GetLatestRates(base), with the write lock acquirable, a positive latest-TTL
and no intervening expiry or competing writer, returns exactly (R, t, true):
the payload round-trips through (de)serialization unchanged under the same
derived key latest:<BASE>. -/
theorem setThenGetLatestRates (cfg : RedisCacheCfg) (uuid : String)
    (st : RedisState) (now : ℤ) (base : Currency) (R : RateMap) (ts : ℤ)
    (hLockFree : redisGet st now "cache_write_lock" = none)
    (hTTL : 0 < cfg.latestRateTTL) :
    redisCacheGetLatestRates
      (redisCacheSetLatestRates cfg uuid st now base R ts).1 now base
      = (R, ts, true) := by
  have hne := latestRatesKey_ne_lockKey base
  have hacq := acquire_free_key (RedisLock.mk "cache_write_lock" uuid 30000)
    st now 10000 hLockFree
  have hv : (redisSet (fun k => if k = "cache_write_lock"
        then some (RedisVal.str uuid, now + 30000) else st k)
      now (latestRatesKey base) (.latestJson R ts) cfg.latestRateTTL)
      "cache_write_lock" = some (.str uuid, now + 30000) := by
    simp [redisSet, Ne.symm hne]
  have hst1lock : redisGet (redisSet (fun k => if k = "cache_write_lock"
        then some (RedisVal.str uuid, now + 30000) else st k)
      now (latestRatesKey base) (.latestJson R ts) cfg.latestRateTTL)
      now "cache_write_lock" = some (.str uuid) := by
    simp only [redisGet, hv]
    rw [if_pos (show now < now + 30000 by omega)]
  have hrun : (redisCacheSetLatestRates cfg uuid st now base R ts).1 =
      redisDel (redisSet (fun k => if k = "cache_write_lock"
          then some (RedisVal.str uuid, now + 30000) else st k)
        now (latestRatesKey base) (.latestJson R ts) cfg.latestRateTTL)
        "cache_write_lock" := by
    simp only [redisCacheSetLatestRates, hacq]
    simp [RedisLock.Release, hst1lock]
  rw [hrun]
  have hval : (redisDel (redisSet (fun k => if k = "cache_write_lock"
        then some (RedisVal.str uuid, now + 30000) else st k)
      now (latestRatesKey base) (.latestJson R ts) cfg.latestRateTTL)
      "cache_write_lock") (latestRatesKey base)
      = some (.latestJson R ts, now + cfg.latestRateTTL) := by
    simp [redisDel, redisSet, hne]
  simp only [redisCacheGetLatestRates, redisGet, hval]
  rw [if_pos (show now < now + cfg.latestRateTTL by omega)]

theorem setThenGetLatestRates_witness :
    redisCacheGetLatestRates
      (redisCacheSetLatestRates ⟨60000, 60000⟩ "uuid-1" (fun _ => none) 0
        "USD" [("INR", (82.5 : ℚ))] 5).1 0 "USD"
      = ([("INR", (82.5 : ℚ))], 5, true) :=
  setThenGetLatestRates ⟨60000, 60000⟩ "uuid-1" (fun _ => none) 0 "USD"
    [("INR", (82.5 : ℚ))] 5 rfl (by decide)

/-! ### doRequest (internals/helpers/frankfurters_api.go lines 79-108)
    One HTTP attempt either fails at the transport level (`netErr`) or
    yields a response with a status code and a body; the JSON decode of a
    body is modelled by its result.  `doRequest` returns the call's result
    together with the number of GET requests performed and the list of
    backoff sleeps (milliseconds) taken. -/

/-- Outcome of one `client.Get`: network error, or status code plus decoded
    body. -/
inductive HttpOutcome (α : Type) where
  | netErr : String → HttpOutcome α
  | resp : ℕ → Except String α → HttpOutcome α

/-- The retry loop of doRequest: on a reachable response, status 200
    returns the decoded body and ANY other status returns
    "http status <code>" immediately; a network error sleeps
    baseDelay * 2^i and retries; after maxRetries network failures the last
    error is wrapped and surfaced.  `remaining` counts the attempts left,
    `i` the attempts made. -/
def doRequestLoop (responses : ℕ → HttpOutcome α) :
    ℕ → ℕ → Option String → List ℤ → Except String α × ℕ × List ℤ
  | 0, i, lastErr, delays =>
      (.error ("external API error after 5 retries: " ++ lastErr.getD ""),
        i, delays)
  | r + 1, i, lastErr, delays =>
      match responses i with
      | .resp code body =>
          if code = 200 then (body, i + 1, delays)
          else (.error ("http status " ++ toString code), i + 1, delays)
      | .netErr e =>
          doRequestLoop responses r (i + 1) (some e)
            (delays ++ [(1000 : ℤ) * 2 ^ i])

/-- Go: doRequest — maxRetries = 5, baseDelay = 1 second. -/
def doRequest (responses : ℕ → HttpOutcome α) : Except String α × ℕ × List ℤ :=
  doRequestLoop responses 5 0 none []

/-- Running the loop through k consecutive network errors consumes k
attempts, accumulates the exponential backoff sleeps, and continues with
the last error recorded. -/
theorem doRequestLoop_netErrs (responses : ℕ → HttpOutcome α)
    (es : ℕ → String) :
    ∀ (k i r : ℕ) (lastErr : Option String) (delays : List ℤ),
    (∀ j, j < k → responses (i + j) = .netErr (es (i + j))) → k ≤ r →
    doRequestLoop responses r i lastErr delays =
      doRequestLoop responses (r - k) (i + k)
        (if k = 0 then lastErr else some (es (i + k - 1)))
        (delays ++ (List.range k).map (fun j => (1000 : ℤ) * 2 ^ (i + j))) := by
  intro k
  induction k with
  | zero =>
      intro i r _lastErr _delays _ _
      simp
  | succ n ih =>
      intro i r lastErr delays hnet hkr
      cases r with
      | zero => omega
      | succ r0 =>
          have h0 : responses i = .netErr (es i) := by
            have := hnet 0 (by omega)
            simpa using this
          have hstep : doRequestLoop responses (r0 + 1) i lastErr delays =
              doRequestLoop responses r0 (i + 1) (some (es i))
                (delays ++ [(1000 : ℤ) * 2 ^ i]) := by
            rw [doRequestLoop, h0]
          rw [hstep]
          have hrec := ih (i + 1) r0 (some (es i))
            (delays ++ [(1000 : ℤ) * 2 ^ i])
            (fun j hj => by
              have := hnet (j + 1) (by omega)
              rwa [show i + (j + 1) = i + 1 + j by omega] at this)
            (by omega)
          rw [hrec]
          have hiEnd : (if n = 0 then some (es i) else some (es (i + 1 + n - 1)))
              = some (es (i + (n + 1) - 1)) := by
            by_cases hn : n = 0
            · subst hn
              simp
            · rw [if_neg hn, show i + 1 + n - 1 = i + (n + 1) - 1 by omega]
          have hdelays : (delays ++ [(1000 : ℤ) * 2 ^ i]) ++
                (List.range n).map (fun j => (1000 : ℤ) * 2 ^ (i + 1 + j))
              = delays ++
                (List.range (n + 1)).map (fun j => (1000 : ℤ) * 2 ^ (i + j)) := by
            rw [List.range_succ_eq_map, List.map_cons, List.map_map,
              List.append_assoc]
            have hfun : ((fun j => (1000 : ℤ) * 2 ^ (i + j)) ∘ Nat.succ)
                = fun j => (1000 : ℤ) * 2 ^ (i + 1 + j) := by
              funext j
              simp only [Function.comp]
              rw [show i + Nat.succ j = i + 1 + j by omega]
            rw [hfun]
            simp
          rw [hiEnd, hdelays, show r0 + 1 - (n + 1) = r0 - n by omega,
            show i + 1 + n = i + (n + 1) by omega,
            if_neg (show ¬(n + 1 = 0) by omega)]

/-- C9 (amended) -- The client layer retries ONLY network failures, with
exponential backoff (1s · 2^i) for at most 5 attempts, surfacing the last
network error after exhaustion; a response that does arrive with a non-200
status is surfaced as an error immediately after that single request, with
no retry and no backoff sleep; a 200 response after k < 5 network failures
returns its decoded body with k+1 requests made and k backoff sleeps
taken. -/
theorem doRequest_retriesOnlyNetworkFailures (α : Type)
    (responses : ℕ → HttpOutcome α) (es : ℕ → String) :
    (∀ (code : ℕ) (body : Except String α),
      responses 0 = .resp code body → code ≠ 200 →
      doRequest responses = (.error ("http status " ++ toString code), 1, [])) ∧
    (∀ (k : ℕ) (body : Except String α), k < 5 →
      (∀ j, j < k → responses j = .netErr (es j)) →
      responses k = .resp 200 body →
      doRequest responses = (body, k + 1,
        (List.range k).map (fun j => (1000 : ℤ) * 2 ^ j))) ∧
    ((∀ j, j < 5 → responses j = .netErr (es j)) →
      doRequest responses =
        (.error ("external API error after 5 retries: " ++ es 4), 5,
          [1000, 2000, 4000, 8000, 16000])) := by
  refine ⟨?_, ?_, ?_⟩
  · intro code body hresp hcode
    rw [doRequest, show (5 : ℕ) = 4 + 1 from rfl, doRequestLoop, hresp]
    simp [hcode]
  · intro k body hk hnet hresp
    have hrun := doRequestLoop_netErrs responses es k 0 5 none []
      (fun j hj => by simpa using hnet j hj) (by omega)
    rw [doRequest, hrun]
    have h5k : (5 : ℕ) - k = (4 - k) + 1 := by omega
    rw [h5k, doRequestLoop]
    have hik : responses (0 + k) = .resp 200 body := by simpa using hresp
    rw [hik]
    simp
  · intro hnet
    have hrun := doRequestLoop_netErrs responses es 5 0 5 none []
      (fun j hj => by simpa using hnet j hj) (by omega)
    rw [doRequest, hrun]
    simp [doRequestLoop]
    decide

/-- C9 counterexample -- with every attempt answered by an HTTP 500
response, doRequest surfaces "http status 500" after exactly one request,
with no retry and no backoff sleep: a non-2xx response is NOT retried and
the error is surfaced before any retries are exhausted. -/
theorem doRequest_non2xx_counterexample :
    doRequest (fun _ => HttpOutcome.resp 500 (Except.ok (7 : ℕ)))
      = (.error "http status 500", 1, []) ∧ (1 : ℕ) ≠ 5 := by
  refine ⟨by decide, by decide⟩

theorem doRequest_retriesOnlyNetworkFailures_witness :
    (doRequest (fun _ => HttpOutcome.resp 500 (Except.ok (7 : ℕ)))
      = (.error ("http status " ++ toString (500 : ℕ)), 1, [])) ∧
    (doRequest (fun i => if i < 2 then HttpOutcome.netErr "conn refused"
        else HttpOutcome.resp 200 (Except.ok (7 : ℕ)))
      = (Except.ok 7, 2 + 1,
        (List.range 2).map (fun j => (1000 : ℤ) * 2 ^ j))) ∧
    (doRequest (fun _ => (HttpOutcome.netErr "conn refused" : HttpOutcome ℕ))
      = (.error ("external API error after 5 retries: " ++ "conn refused"), 5,
        [1000, 2000, 4000, 8000, 16000])) :=
  ⟨(doRequest_retriesOnlyNetworkFailures ℕ
      (fun _ => HttpOutcome.resp 500 (Except.ok (7 : ℕ)))
      (fun _ => "conn refused")).1 500 (.ok 7) rfl (by decide),
   (doRequest_retriesOnlyNetworkFailures ℕ
      (fun i => if i < 2 then HttpOutcome.netErr "conn refused"
        else HttpOutcome.resp 200 (Except.ok (7 : ℕ)))
      (fun _ => "conn refused")).2.1 2 (.ok 7) (by decide)
      (fun j hj => by rw [if_pos hj]) (by rfl),
   (doRequest_retriesOnlyNetworkFailures ℕ
      (fun _ => (HttpOutcome.netErr "conn refused" : HttpOutcome ℕ))
      (fun _ => "conn refused")).2.2 (fun _ _ => rfl)⟩

end CurrencyExchange
